import Mathlib

/-!
Shallow embedding of the PrediktFi prediction-market program
(`programs/prediktfi-protocol/src/lib.rs`).

Modelling conventions:
* `u64` values are `Nat` together with explicit reduction `% 2 ^ 64` exactly
  where the Rust code performs unchecked (wrapping) arithmetic or an `as u64`
  cast; `u128` values are `Nat` with overflow checks at `2 ^ 128` where the
  code uses `checked_mul` / `checked_div`.
* `i64` timestamps are `Int`; `Pubkey` identities are `Nat`.
* Each instruction handler is a pure function returning
  `Except ErrorCode <new state>`; an error result means the transaction
  aborts and no account state changes (the Solana/Anchor runtime rolls back
  every account mutation on error, so checks that precede mutations in the
  handler and the all-or-nothing runtime give the same observable behaviour).
* Lamport balances and the system-program transfers are external
  value-transfer collaborators and are not part of the account state modelled
  here; event emission (`emit!`) and logging (`msg!`) are write-only effects
  and are dropped.
* The Anchor `Accounts` constraints (`init` uniqueness, `has_one = authority`)
  are framework-level checks outside the handler bodies; the handlers are
  modelled exactly as written, with the accounts they receive as arguments.
-/

namespace PrediktFi

/-- Modulus of the Rust `u64` type. -/
def U64_MOD : Nat := 2 ^ 64

/-- Modulus of the Rust `u128` type. -/
def U128_MOD : Nat := 2 ^ 128

/-- Wrapping `u64` addition: Rust `+` / `+=` on `u64` without overflow
checks reduces modulo `2 ^ 64`. -/
def wadd (a b : Nat) : Nat := (a + b) % U64_MOD

/-- Rust `u128::checked_mul`: `none` when the product overflows `u128`. -/
def checked_mul (a b : Nat) : Option Nat :=
  if a * b < U128_MOD then some (a * b) else none

/-- Rust `u128::checked_div`: `none` exactly when the divisor is zero. -/
def checked_div (a b : Nat) : Option Nat :=
  if b = 0 then none else some (a / b)

/-- The `ProtocolState` account (`lib.rs`). -/
structure ProtocolState where
  authority : Nat
  total_markets : Nat
  is_paused : Bool
deriving Repr, DecidableEq

/-- The `PredictionMarket` account (`lib.rs`). -/
structure PredictionMarket where
  id : String
  description : String
  end_timestamp : Int
  created_timestamp : Int
  resolved_timestamp : Option Int
  min_bet_amount : Nat
  is_resolved : Bool
  outcome : Option Bool
  total_yes_amount : Nat
  total_no_amount : Nat
  total_participants : Nat
  authority : Nat
deriving Repr, DecidableEq

/-- The `UserPrediction` account (`lib.rs`). -/
structure UserPrediction where
  market : Nat
  user : Nat
  amount : Nat
  prediction : Bool
  timestamp : Int
  claimed : Bool
  winnings : Nat
deriving Repr, DecidableEq

/-- The `ErrorCode` enum (`lib.rs`). -/
inductive ErrorCode where
  | MarketAlreadyResolved
  | MarketExpired
  | MarketNotExpired
  | MarketNotResolved
  | ProtocolPaused
  | MarketIdTooLong
  | DescriptionTooLong
  | InvalidMinBetAmount
  | InvalidEndTime
  | BetAmountTooLow
  | UserAlreadyPredicted
  | AlreadyClaimed
  | UserLost
  | MathOverflow
deriving Repr, DecidableEq

/-- The `create_prediction_market` handler. Checks in source order: pause flag,
id length (bytes), description length (bytes), `min_bet_amount > 0`,
`end_timestamp > now`; then initializes the market and increments
`total_markets` (unchecked `+= 1`, hence wrapping). -/
def create_prediction_market (protocol_state : ProtocolState)
    (market_id description : String) (end_timestamp : Int)
    (min_bet_amount : Nat) (now : Int) (authority : Nat) :
    Except ErrorCode (ProtocolState × PredictionMarket) :=
  if protocol_state.is_paused then .error .ProtocolPaused
  else if ¬ market_id.utf8ByteSize ≤ 50 then .error .MarketIdTooLong
  else if ¬ description.utf8ByteSize ≤ 500 then .error .DescriptionTooLong
  else if ¬ min_bet_amount > 0 then .error .InvalidMinBetAmount
  else if ¬ end_timestamp > now then .error .InvalidEndTime
  else
    .ok ({ protocol_state with total_markets := wadd protocol_state.total_markets 1 },
      { id := market_id
        description := description
        end_timestamp := end_timestamp
        created_timestamp := now
        resolved_timestamp := none
        min_bet_amount := min_bet_amount
        is_resolved := false
        outcome := none
        total_yes_amount := 0
        total_no_amount := 0
        total_participants := 0
        authority := authority })

/-- The `place_prediction` handler. Checks in source order: market not resolved,
`amount >= min_bet_amount`, `now < end_timestamp` (strict), existing
prediction (`user_prediction.amount > 0`); then adds `amount` to the chosen
side with unchecked `+=` (wrapping), increments `total_participants`
(wrapping), and fills in the stake record (leaving `claimed` and `winnings`
as they were, since the handler does not assign them). `market_key` is the
market account's address (`market.key()`). -/
def place_prediction (market_key : Nat) (market : PredictionMarket)
    (user_prediction : UserPrediction) (user : Nat) (amount : Nat)
    (prediction : Bool) (now : Int) :
    Except ErrorCode (PredictionMarket × UserPrediction) :=
  if market.is_resolved then .error .MarketAlreadyResolved
  else if ¬ amount ≥ market.min_bet_amount then .error .BetAmountTooLow
  else if ¬ now < market.end_timestamp then .error .MarketExpired
  else if user_prediction.amount > 0 then .error .UserAlreadyPredicted
  else
    let market' :=
      if prediction then
        { market with
          total_yes_amount := wadd market.total_yes_amount amount
          total_participants := wadd market.total_participants 1 }
      else
        { market with
          total_no_amount := wadd market.total_no_amount amount
          total_participants := wadd market.total_participants 1 }
    .ok (market',
      { user_prediction with
        market := market_key
        user := user
        amount := amount
        prediction := prediction
        timestamp := now })

/-- The `resolve_market` handler. Checks in source order: market not already
resolved, `now >= end_timestamp`; then sets `is_resolved`, `outcome`,
`resolved_timestamp`. (The `has_one = authority` signer constraint is
enforced by the Anchor accounts framework before the handler runs and is
outside the handler body.) -/
def resolve_market (market : PredictionMarket) (outcome : Bool) (now : Int) :
    Except ErrorCode PredictionMarket :=
  if market.is_resolved then .error .MarketAlreadyResolved
  else if ¬ now ≥ market.end_timestamp then .error .MarketNotExpired
  else
    .ok { market with
      is_resolved := true
      outcome := some outcome
      resolved_timestamp := some now }

/-- The `claim_winnings` handler. Checks in source order: market resolved, record
not claimed, `outcome` present (`ok_or(MarketNotResolved)`), user on the
winning side; then computes `total_pool` with an unchecked `u64` `+`
(wrapping), the product and quotient with `u128` `checked_mul` /
`checked_div` (each failing as `MathOverflow`), casts the quotient back with
`as u64` (truncating modulo `2 ^ 64`), and marks the record claimed with the
winnings. The market account's data fields are never written (the handler
only moves lamports, an external collaborator), so the market is returned
unchanged. The third component is the amount transferred to the user. -/
def claim_winnings (market : PredictionMarket)
    (user_prediction : UserPrediction) :
    Except ErrorCode (PredictionMarket × UserPrediction × Nat) :=
  if ¬ market.is_resolved then .error .MarketNotResolved
  else if user_prediction.claimed then .error .AlreadyClaimed
  else
    match market.outcome with
    | none => .error .MarketNotResolved
    | some outcome =>
      if user_prediction.prediction ≠ outcome then .error .UserLost
      else
        let total_pool := wadd market.total_yes_amount market.total_no_amount
        let winning_pool :=
          if outcome then market.total_yes_amount else market.total_no_amount
        match checked_mul user_prediction.amount total_pool with
        | none => .error .MathOverflow
        | some product =>
          match checked_div product winning_pool with
          | none => .error .MathOverflow
          | some quotient =>
            let user_winnings := quotient % U64_MOD
            .ok (market,
              { user_prediction with claimed := true, winnings := user_winnings },
              user_winnings)

/-- The amount a claim pays out, `0` when the claim fails (a failed
transaction transfers nothing). -/
def payoutOf (market : PredictionMarket) (user_prediction : UserPrediction) :
    Nat :=
  match claim_winnings market user_prediction with
  | .ok (_, _, w) => w
  | .error _ => 0

/-- The stake record after a claim attempt: updated on success, rolled back
(unchanged) on error, per the all-or-nothing transaction semantics. -/
def claimUpdate (market : PredictionMarket)
    (user_prediction : UserPrediction) : UserPrediction :=
  match claim_winnings market user_prediction with
  | .ok (_, r, _) => r
  | .error _ => user_prediction

/-- An instruction acting on a fixed market account, with the caller-supplied
arguments and accounts it takes besides the market itself. -/
inductive Op where
  | place (user_prediction : UserPrediction) (user amount : Nat)
      (prediction : Bool) (now : Int) (market_key : Nat)
  | resolve (outcome : Bool) (now : Int)
  | claim (user_prediction : UserPrediction)
deriving Repr

/-- The market account after executing one instruction: the handler's result
on success, the unchanged account on error (runtime rollback). -/
def stepMarket (market : PredictionMarket) : Op → PredictionMarket
  | .place up user amount prediction now market_key =>
    match place_prediction market_key market up user amount prediction now with
    | .ok (m, _) => m
    | .error _ => market
  | .resolve outcome now =>
    match resolve_market market outcome now with
    | .ok m => m
    | .error _ => market
  | .claim up =>
    match claim_winnings market up with
    | .ok (m, _, _) => m
    | .error _ => market

/-- The market account after a sequence of instructions. -/
def runOps (market : PredictionMarket) : List Op → PredictionMarket
  | [] => market
  | op :: ops => runOps (stepMarket market op) ops

/-- Market states reachable from `create_prediction_market` by any sequence
of instructions. -/
inductive Reachable : PredictionMarket → Prop where
  | create (ps : ProtocolState) (market_id description : String)
      (end_timestamp : Int) (min_bet_amount : Nat) (now : Int)
      (authority : Nat) (ps' : ProtocolState) (m : PredictionMarket) :
      create_prediction_market ps market_id description end_timestamp
        min_bet_amount now authority = .ok (ps', m) → Reachable m
  | step (m : PredictionMarket) (op : Op) : Reachable m →
      Reachable (stepMarket m op)

/-- Agreement of `is_resolved`, `outcome.isSome` and `resolved_timestamp.isSome`. -/
def resolutionInv (m : PredictionMarket) : Prop :=
  m.is_resolved = m.outcome.isSome ∧
    m.is_resolved = m.resolved_timestamp.isSome

/-- A sample unresolved market used to instantiate universally quantified
theorems at concrete inputs. -/
def sampleM : PredictionMarket where
  id := "m"
  description := "d"
  end_timestamp := 10
  created_timestamp := 0
  resolved_timestamp := none
  min_bet_amount := 1
  is_resolved := false
  outcome := none
  total_yes_amount := 0
  total_no_amount := 0
  total_participants := 0
  authority := 7

/-- A fresh (all-zero) stake record, as Anchor `init` zero-initializes the
`UserPrediction` account before the handler runs. -/
def freshR : UserPrediction where
  market := 0
  user := 0
  amount := 0
  prediction := false
  timestamp := 0
  claimed := false
  winnings := 0

/-- Claim C4: `resolve_market` strictly before `end_timestamp` on an
unresolved market fails with `MarketNotExpired`; at or after
`end_timestamp` on an unresolved market it succeeds and sets
`is_resolved = true`, `outcome = some o`, `resolved_timestamp = some now`;
it succeeds at most once: on an already-resolved market (in particular on
the market produced by a successful resolution) it fails with
`MarketAlreadyResolved`. -/
theorem resolve_market_window (m : PredictionMarket) (o o2 : Bool)
    (now now2 : Int) :
    (m.is_resolved = false → now < m.end_timestamp →
      resolve_market m o now = .error .MarketNotExpired) ∧
    (m.is_resolved = false → m.end_timestamp ≤ now →
      resolve_market m o now =
        .ok { m with
              is_resolved := true, outcome := some o,
              resolved_timestamp := some now }) ∧
    (m.is_resolved = true →
      resolve_market m o now = .error .MarketAlreadyResolved) ∧
    (m.is_resolved = false → m.end_timestamp ≤ now →
      ∀ m', resolve_market m o now = .ok m' →
        resolve_market m' o2 now2 = .error .MarketAlreadyResolved) := by
  refine ⟨?_, ?_, ?_, ?_⟩
  · intro hr ht
    have hlt : ¬ now ≥ m.end_timestamp := not_le.mpr ht
    simp [resolve_market, hr, hlt]
  · intro hr ht
    simp [resolve_market, hr, ht]
  · intro hr
    simp [resolve_market, hr]
  · intro hr ht m' hm'
    have hm : m' =
        { m with
          is_resolved := true, outcome := some o,
          resolved_timestamp := some now } := by
      simp [resolve_market, hr, ht] at hm'
      exact hm'.symm
    subst hm
    simp [resolve_market]

/-- Witness for C4 at a concrete market: resolving at time 9 (before the
deadline 10) fails, at time 20 succeeds, and resolving again fails. -/
theorem resolve_market_window_witness :
    resolve_market sampleM true 9 = .error .MarketNotExpired ∧
    resolve_market sampleM true 20 =
      .ok { sampleM with
            is_resolved := true, outcome := some true,
            resolved_timestamp := some 20 } ∧
    resolve_market
      { sampleM with
        is_resolved := true, outcome := some true,
        resolved_timestamp := some 20 } false 30 =
      .error .MarketAlreadyResolved :=
  ⟨(resolve_market_window sampleM true false 9 30).1 rfl (by decide),
   (resolve_market_window sampleM true false 20 30).2.1 rfl (by decide),
   (resolve_market_window sampleM true false 20 30).2.2.2 rfl (by decide)
     _ ((resolve_market_window sampleM true false 20 30).2.1 rfl (by decide))⟩

/-- Claim C5: on an unresolved market with a sufficient amount,
`place_prediction` strictly after `end_timestamp` fails with
`MarketExpired`; at exactly `end_timestamp` it also fails with
`MarketExpired` (the comparison `now < end_timestamp` is strict); strictly
before `end_timestamp`, with no existing stake record, it succeeds. -/
theorem place_prediction_deadline (market_key : Nat) (m : PredictionMarket)
    (up : UserPrediction) (user amount : Nat) (p : Bool) (now : Int)
    (hres : m.is_resolved = false) (hamt : m.min_bet_amount ≤ amount) :
    (m.end_timestamp < now →
      place_prediction market_key m up user amount p now =
        .error .MarketExpired) ∧
    (now = m.end_timestamp →
      place_prediction market_key m up user amount p now =
        .error .MarketExpired) ∧
    (now < m.end_timestamp → up.amount = 0 →
      (place_prediction market_key m up user amount p now).isOk = true) := by
  refine ⟨?_, ?_, ?_⟩
  · intro ht
    have hlt : ¬ now < m.end_timestamp := not_lt.mpr (le_of_lt ht)
    simp [place_prediction, hres, hamt, hlt]
  · intro ht
    have hlt : ¬ now < m.end_timestamp := by omega
    simp [place_prediction, hres, hamt, hlt]
  · intro ht h0
    simp [place_prediction, hres, hamt, ht, h0, Except.isOk, Except.toBool]

/-- Witness for C5 at a concrete market with deadline 10: staking at time 11
and at time 10 fails with `MarketExpired`, staking at time 9 succeeds. -/
theorem place_prediction_deadline_witness :
    place_prediction 3 sampleM freshR 9 5 true 11 = .error .MarketExpired ∧
    place_prediction 3 sampleM freshR 9 5 true 10 = .error .MarketExpired ∧
    (place_prediction 3 sampleM freshR 9 5 true 9).isOk = true :=
  ⟨(place_prediction_deadline 3 sampleM freshR 9 5 true 11 rfl
      (by decide)).1 (by decide),
   (place_prediction_deadline 3 sampleM freshR 9 5 true 10 rfl
      (by decide)).2.1 (by decide),
   (place_prediction_deadline 3 sampleM freshR 9 5 true 9 rfl
      (by decide)).2.2 (by decide) rfl⟩

/-- A successful `place_prediction` records the staked amount (which meets
the market minimum) in the stake record and preserves `min_bet_amount`. -/
theorem place_prediction_ok_inv (market_key : Nat) (m0 m1 : PredictionMarket)
    (up0 up1 : UserPrediction) (user a0 : Nat) (p0 : Bool) (now0 : Int)
    (h1 : place_prediction market_key m0 up0 user a0 p0 now0 = .ok (m1, up1)) :
    up1.amount = a0 ∧ m0.min_bet_amount ≤ a0 ∧
      m1.min_bet_amount = m0.min_bet_amount := by
  unfold place_prediction at h1
  split at h1
  · exact absurd h1 (by simp)
  split at h1
  · exact absurd h1 (by simp)
  split at h1
  · exact absurd h1 (by simp)
  split at h1
  · exact absurd h1 (by simp)
  rename_i hc1 hc2 hc3 hc4
  push_neg at hc2
  simp only [Except.ok.injEq, Prod.mk.injEq] at h1
  obtain ⟨hA, hB⟩ := h1
  refine ⟨by rw [← hB], hc2, ?_⟩
  rw [← hA]
  by_cases hp : p0 <;> simp [hp]

/-- Claim C6: after a successful first `place_prediction` for a
(market, user) pair, a second `place_prediction` by the same user in the
same market (with the order-earlier checks passing) fails with
`UserAlreadyPredicted`; the failed transaction leaves the market — in
particular `total_yes_amount`, `total_no_amount` and `total_participants` —
unchanged and does not overwrite the existing stake record. -/
theorem place_prediction_no_second (market_key : Nat)
    (m0 m1 : PredictionMarket) (up0 up1 : UserPrediction)
    (user a0 a1 : Nat) (p0 p1 : Bool) (now0 now1 : Int)
    (hmin : 0 < m0.min_bet_amount)
    (h1 : place_prediction market_key m0 up0 user a0 p0 now0 = .ok (m1, up1))
    (hres : m1.is_resolved = false) (hamt : m1.min_bet_amount ≤ a1)
    (htime : now1 < m1.end_timestamp) :
    place_prediction market_key m1 up1 user a1 p1 now1 =
      .error .UserAlreadyPredicted ∧
    stepMarket m1 (.place up1 user a1 p1 now1 market_key) = m1 ∧
    (stepMarket m1 (.place up1 user a1 p1 now1 market_key)).total_yes_amount =
      m1.total_yes_amount ∧
    (stepMarket m1 (.place up1 user a1 p1 now1 market_key)).total_no_amount =
      m1.total_no_amount ∧
    (stepMarket m1 (.place up1 user a1 p1 now1 market_key)).total_participants =
      m1.total_participants := by
  obtain ⟨hup, hmin0, _⟩ :=
    place_prediction_ok_inv market_key m0 m1 up0 up1 user a0 p0 now0 h1
  have hpos : up1.amount > 0 := by omega
  have herr : place_prediction market_key m1 up1 user a1 p1 now1 =
      .error .UserAlreadyPredicted := by
    simp [place_prediction, hres, hamt, htime, hpos]
  refine ⟨herr, ?_, ?_, ?_, ?_⟩ <;> simp [stepMarket, herr]

/-- The market and stake record after a successful first stake on
`sampleM`: 5 lamports on YES by user 9. -/
def c6M1 : PredictionMarket :=
  { sampleM with total_yes_amount := 5, total_participants := 1 }

/-- The stake record created by that first stake. -/
def c6R1 : UserPrediction where
  market := 3
  user := 9
  amount := 5
  prediction := true
  timestamp := 0
  claimed := false
  winnings := 0

/-- Witness for C6: after user 9 staked 5 on `sampleM`, a second stake by
the same user fails with `UserAlreadyPredicted` and the market is
unchanged. -/
theorem place_prediction_no_second_witness :
    place_prediction 3 c6M1 c6R1 9 5 false 1 =
      .error .UserAlreadyPredicted ∧
    stepMarket c6M1 (.place c6R1 9 5 false 1 3) = c6M1 ∧
    (stepMarket c6M1 (.place c6R1 9 5 false 1 3)).total_yes_amount =
      c6M1.total_yes_amount ∧
    (stepMarket c6M1 (.place c6R1 9 5 false 1 3)).total_no_amount =
      c6M1.total_no_amount ∧
    (stepMarket c6M1 (.place c6R1 9 5 false 1 3)).total_participants =
      c6M1.total_participants :=
  place_prediction_no_second 3 sampleM c6M1 freshR c6R1 9 5 5 true false 0 1
    (by decide) rfl rfl (by decide) (by decide)

/-- Claim C7: every failing `claim_winnings` leaves the stake record
unchanged and pays nothing: on a resolved market an already-claimed record
fails with `AlreadyClaimed` (so `winnings` is not altered and nothing is
paid a second time), a losing record fails with `UserLost` (so `claimed`
stays `false`), an unresolved market fails with `MarketNotResolved`, and on
any error the post-transaction record equals the input record and the
transferred payout is zero. -/
theorem claim_winnings_failure_no_mutation (m : PredictionMarket)
    (r : UserPrediction) (o : Bool) :
    (m.is_resolved = true → r.claimed = true →
      claim_winnings m r = .error .AlreadyClaimed) ∧
    (m.is_resolved = true → r.claimed = false → m.outcome = some o →
      r.prediction ≠ o → claim_winnings m r = .error .UserLost) ∧
    (m.is_resolved = false → claim_winnings m r = .error .MarketNotResolved) ∧
    (∀ e, claim_winnings m r = .error e →
      claimUpdate m r = r ∧ payoutOf m r = 0) := by
  refine ⟨?_, ?_, ?_, ?_⟩
  · intro h1 h2
    simp [claim_winnings, h1, h2]
  · intro h1 h2 h3 h4
    simp [claim_winnings, h1, h2, h3, h4]
  · intro h1
    simp [claim_winnings, h1]
  · intro e he
    simp [claimUpdate, payoutOf, he]

/-- A resolved market (outcome YES) with pools 5 / 3, used to instantiate
C7. -/
def c7M : PredictionMarket :=
  { sampleM with
    is_resolved := true, outcome := some true,
    resolved_timestamp := some 10, total_yes_amount := 5,
    total_no_amount := 3, total_participants := 2 }

/-- An already-claimed winning record on `c7M`. -/
def c7Rclaimed : UserPrediction where
  market := 3
  user := 9
  amount := 5
  prediction := true
  timestamp := 0
  claimed := true
  winnings := 8

/-- A losing (NO) record on `c7M`. -/
def c7Rlost : UserPrediction where
  market := 3
  user := 8
  amount := 3
  prediction := false
  timestamp := 0
  claimed := false
  winnings := 0

/-- Witness for C7 at concrete inputs: repeated claim, losing claim, and
claim on an unresolved market all fail with the stated errors, and the
failing losing claim leaves the record unchanged and pays zero. -/
theorem claim_winnings_failure_witness :
    claim_winnings c7M c7Rclaimed = .error .AlreadyClaimed ∧
    claim_winnings c7M c7Rlost = .error .UserLost ∧
    claim_winnings sampleM c7Rlost = .error .MarketNotResolved ∧
    (claimUpdate c7M c7Rlost = c7Rlost ∧ payoutOf c7M c7Rlost = 0) :=
  ⟨(claim_winnings_failure_no_mutation c7M c7Rclaimed true).1 rfl rfl,
   (claim_winnings_failure_no_mutation c7M c7Rlost true).2.1 rfl rfl rfl
     (by decide),
   (claim_winnings_failure_no_mutation sampleM c7Rlost true).2.2.1 rfl,
   (claim_winnings_failure_no_mutation c7M c7Rlost true).2.2.2 .UserLost
     ((claim_winnings_failure_no_mutation c7M c7Rlost true).2.1 rfl rfl rfl
       (by decide))⟩

/-- A successful `claim_winnings` returns the market account unchanged:
the handler reads the market immutably and only moves lamports. -/
theorem claim_winnings_market_eq (m : PredictionMarket) (r : UserPrediction)
    (t : PredictionMarket × UserPrediction × Nat)
    (h : claim_winnings m r = .ok t) : t.1 = m := by
  unfold claim_winnings at h
  repeat'
    first
      | (simp only [] at h)
      | split at h
  all_goals first
    | (simp only [Except.ok.injEq] at h
       try rw [← h])
    | exact absurd h (by simp)

/-- A successful `place_prediction` leaves the resolution state
(`is_resolved`, `outcome`, `resolved_timestamp`) of the market untouched. -/
theorem place_prediction_ok_resolution (market_key : Nat)
    (m0 m1 : PredictionMarket) (up0 up1 : UserPrediction)
    (user a0 : Nat) (p0 : Bool) (now0 : Int)
    (h1 : place_prediction market_key m0 up0 user a0 p0 now0 = .ok (m1, up1)) :
    m1.is_resolved = m0.is_resolved ∧ m1.outcome = m0.outcome ∧
      m1.resolved_timestamp = m0.resolved_timestamp := by
  unfold place_prediction at h1
  split at h1
  · exact absurd h1 (by simp)
  split at h1
  · exact absurd h1 (by simp)
  split at h1
  · exact absurd h1 (by simp)
  split at h1
  · exact absurd h1 (by simp)
  simp only [Except.ok.injEq, Prod.mk.injEq] at h1
  obtain ⟨hA, -⟩ := h1
  rw [← hA]
  by_cases hp : p0 <;> simp [hp]

/-- A successful `resolve_market` produces exactly the input market with
`is_resolved`, `outcome` and `resolved_timestamp` set. -/
theorem resolve_market_ok_fields (m m' : PredictionMarket) (o : Bool)
    (now : Int) (h : resolve_market m o now = .ok m') :
    m' = { m with
           is_resolved := true, outcome := some o,
           resolved_timestamp := some now } := by
  unfold resolve_market at h
  split at h
  · exact absurd h (by simp)
  split at h
  · exact absurd h (by simp)
  simp only [Except.ok.injEq] at h
  exact h.symm

/-- On a resolved market every instruction leaves the market account
unchanged: `place_prediction` and `resolve_market` fail their
`is_resolved` check, and `claim_winnings` never writes the market's data
fields. -/
theorem stepMarket_resolved (m : PredictionMarket)
    (hres : m.is_resolved = true) (op : Op) : stepMarket m op = m := by
  cases op with
  | place up user amount p now key =>
    simp [stepMarket, place_prediction, hres]
  | resolve o now =>
    simp [stepMarket, resolve_market, hres]
  | claim up =>
    simp only [stepMarket]
    cases hcw : claim_winnings m up with
    | error e => rfl
    | ok t =>
      obtain ⟨m', r', w⟩ := t
      exact claim_winnings_market_eq m up (m', r', w) hcw

/-- Claim C8: once a market is resolved, no sequence of instructions
(`place_prediction`, `resolve_market`, `claim_winnings`) ever changes its
`total_yes_amount` or `total_no_amount`: after any instruction sequence the
pooled totals equal their values at the moment of resolution. -/
theorem resolved_totals_frozen (m : PredictionMarket)
    (hres : m.is_resolved = true) (ops : List Op) :
    (runOps m ops).total_yes_amount = m.total_yes_amount ∧
    (runOps m ops).total_no_amount = m.total_no_amount := by
  have h : runOps m ops = m := by
    induction ops with
    | nil => rfl
    | cons op ops ih =>
      rw [runOps, stepMarket_resolved m hres op]
      exact ih
  rw [h]
  exact ⟨rfl, rfl⟩

/-- Witness for C8: on the resolved market `c7M`, a stake attempt, a second
resolution attempt and a claim leave the pooled totals unchanged. -/
theorem resolved_totals_frozen_witness :
    (runOps c7M [.place freshR 9 5 true 0 3, .resolve false 20,
      .claim c7Rclaimed]).total_yes_amount = c7M.total_yes_amount ∧
    (runOps c7M [.place freshR 9 5 true 0 3, .resolve false 20,
      .claim c7Rclaimed]).total_no_amount = c7M.total_no_amount :=
  resolved_totals_frozen c7M rfl
    [.place freshR 9 5 true 0 3, .resolve false 20, .claim c7Rclaimed]

/-- A successful `create_prediction_market` hands back a market with the
resolution state unset and the pools at zero. -/
theorem create_prediction_market_ok_inv (ps : ProtocolState)
    (market_id description : String) (end_timestamp : Int)
    (min_bet_amount : Nat) (now : Int) (authority : Nat)
    (ps' : ProtocolState) (m : PredictionMarket)
    (h : create_prediction_market ps market_id description end_timestamp
      min_bet_amount now authority = .ok (ps', m)) :
    m.is_resolved = false ∧ m.outcome = none ∧ m.resolved_timestamp = none ∧
      m.total_yes_amount = 0 ∧ m.total_no_amount = 0 := by
  unfold create_prediction_market at h
  split at h
  · exact absurd h (by simp)
  split at h
  · exact absurd h (by simp)
  split at h
  · exact absurd h (by simp)
  split at h
  · exact absurd h (by simp)
  split at h
  · exact absurd h (by simp)
  simp only [Except.ok.injEq, Prod.mk.injEq] at h
  obtain ⟨-, hm⟩ := h
  rw [← hm]
  exact ⟨rfl, rfl, rfl, rfl, rfl⟩

/-- Every instruction preserves the agreement of `is_resolved`,
`outcome.isSome` and `resolved_timestamp.isSome`. -/
theorem stepMarket_resolutionInv (m : PredictionMarket) (op : Op)
    (h : resolutionInv m) : resolutionInv (stepMarket m op) := by
  obtain ⟨h1, h2⟩ := h
  cases op with
  | place up user amount p now key =>
    simp only [stepMarket]
    cases hpp : place_prediction key m up user amount p now with
    | error e => exact ⟨h1, h2⟩
    | ok t =>
      obtain ⟨m', r'⟩ := t
      obtain ⟨ha, hb, hc⟩ :=
        place_prediction_ok_resolution key m m' up r' user amount p now hpp
      exact ⟨by rw [ha, hb]; exact h1, by rw [ha, hc]; exact h2⟩
  | resolve o now =>
    simp only [stepMarket]
    cases hr : resolve_market m o now with
    | error e => exact ⟨h1, h2⟩
    | ok m' =>
      rw [resolve_market_ok_fields m m' o now hr]
      exact ⟨rfl, rfl⟩
  | claim up =>
    simp only [stepMarket]
    cases hcw : claim_winnings m up with
    | error e => exact ⟨h1, h2⟩
    | ok t =>
      obtain ⟨m', r', w⟩ := t
      have hm : m' = m := claim_winnings_market_eq m up (m', r', w) hcw
      show resolutionInv m'
      rw [hm]
      exact ⟨h1, h2⟩

/-- Claim C9: in every market state reachable through
`create_prediction_market` and the instruction step relation, `is_resolved`
agrees with `outcome.isSome` and with `resolved_timestamp.isSome` (all
three are unset at creation and set together by `resolve_market`);
consequently, on a resolved reachable market the `outcome` lookup inside
`claim_winnings` never fails, so `claim_winnings` never returns
`MarketNotResolved` there. -/
theorem reachable_resolution_inv (m : PredictionMarket) (h : Reachable m) :
    resolutionInv m ∧
    (m.is_resolved = true → ∀ r : UserPrediction,
      claim_winnings m r ≠ .error .MarketNotResolved) := by
  have hinv : resolutionInv m := by
    induction h with
    | create ps mid d et mba now auth ps' m hm =>
      obtain ⟨ha, hb, hc, -, -⟩ :=
        create_prediction_market_ok_inv ps mid d et mba now auth ps' m hm
      exact ⟨by rw [ha, hb]; rfl, by rw [ha, hc]; rfl⟩
    | step m op hm ih => exact stepMarket_resolutionInv m op ih
  refine ⟨hinv, ?_⟩
  intro hres r
  obtain ⟨h1, h2⟩ := hinv
  rw [hres] at h1
  obtain ⟨b, hb⟩ : ∃ b, m.outcome = some b := by
    cases ho : m.outcome with
    | none => rw [ho] at h1; simp at h1
    | some b => exact ⟨b, rfl⟩
  simp only [claim_winnings, hres, hb, not_true, Bool.true_eq_false,
    if_false, eq_self_iff_true]
  repeat' split
  all_goals simp

/-- The protocol state used to create markets in concrete instantiations. -/
def samplePS : ProtocolState where
  authority := 0
  total_markets := 0
  is_paused := false

/-- Witness for C9 at the concretely created market `sampleM` (created from
`samplePS` at time 0 with deadline 10 and minimum bet 1). -/
theorem reachable_resolution_inv_witness :
    resolutionInv sampleM ∧
    (sampleM.is_resolved = true → ∀ r : UserPrediction,
      claim_winnings sampleM r ≠ .error .MarketNotResolved) :=
  reachable_resolution_inv sampleM
    (Reachable.create samplePS "m" "d" 10 1 0 7
      { samplePS with total_markets := 1 } sampleM rfl)

/-- Full characterization of a successful `claim_winnings`: the market is
resolved with some outcome, the record is unclaimed and on the winning
side, the winning pool is nonzero, and the result is the market unchanged
together with the record marked claimed and the truncated quotient
`amount * ((yes + no) % 2^64) / winning_pool % 2^64` as winnings and
payout. -/
theorem claim_winnings_ok_spec (m : PredictionMarket) (r : UserPrediction)
    (t : PredictionMarket × UserPrediction × Nat)
    (h : claim_winnings m r = .ok t) :
    ∃ o, m.outcome = some o ∧ m.is_resolved = true ∧ r.claimed = false ∧
      r.prediction = o ∧
      (if o then m.total_yes_amount else m.total_no_amount) ≠ 0 ∧
      t = (m,
        { r with
          claimed := true
          winnings := r.amount * wadd m.total_yes_amount m.total_no_amount /
            (if o then m.total_yes_amount else m.total_no_amount) % U64_MOD },
        r.amount * wadd m.total_yes_amount m.total_no_amount /
          (if o then m.total_yes_amount else m.total_no_amount) % U64_MOD) := by
  unfold claim_winnings at h
  split at h
  · exact absurd h (by simp)
  rename_i hres
  split at h
  · exact absurd h (by simp)
  rename_i hcl
  split at h
  · exact absurd h (by simp)
  rename_i o ho
  split at h
  · exact absurd h (by simp)
  rename_i hp
  simp only [] at h
  split at h
  · exact absurd h (by simp)
  rename_i product hprod
  split at h
  · exact absurd h (by simp)
  rename_i q hdiv
  have hprodeq : product =
      r.amount * wadd m.total_yes_amount m.total_no_amount := by
    unfold checked_mul at hprod
    split at hprod
    · simpa using hprod.symm
    · exact absurd hprod (by simp)
  set W := if o = true then m.total_yes_amount else m.total_no_amount
    with hWdef
  have hdiveq : q = product / W ∧ W ≠ 0 := by
    unfold checked_div at hdiv
    split at hdiv
    · exact absurd hdiv (by simp)
    · rename_i hW
      exact ⟨by simpa using hdiv.symm, hW⟩
  simp only [Except.ok.injEq] at h
  refine ⟨o, ho, not_not.mp hres, by simpa using hcl, not_not.mp hp,
    hdiveq.2, ?_⟩
  rw [← h, hdiveq.1, hprodeq]

/-- Claim C2 (amended): for every claim on a resolved market by an
unclaimed winning record, provided the `u64` sum
`total_yes_amount + total_no_amount` does not overflow and the exact
quotient fits in `u64`, `claim_winnings` succeeds with payout and recorded
winnings equal to
`floor(amount * (total_yes_amount + total_no_amount) / winning_pool)`;
the multiplication, carried out in `u128`, cannot overflow for
`u64`-ranged amounts. -/
theorem claim_winnings_payout_formula (m : PredictionMarket)
    (r : UserPrediction) (o : Bool)
    (hres : m.is_resolved = true) (ho : m.outcome = some o)
    (hcl : r.claimed = false) (hp : r.prediction = o)
    (hr : r.amount < U64_MOD)
    (hpool : m.total_yes_amount + m.total_no_amount < U64_MOD)
    (hW : (if o then m.total_yes_amount else m.total_no_amount) ≠ 0)
    (hq : r.amount * (m.total_yes_amount + m.total_no_amount) /
        (if o then m.total_yes_amount else m.total_no_amount) < U64_MOD) :
    checked_mul r.amount (wadd m.total_yes_amount m.total_no_amount) ≠
      none ∧
    claim_winnings m r =
      .ok (m,
        { r with
          claimed := true
          winnings := r.amount * (m.total_yes_amount + m.total_no_amount) /
            (if o then m.total_yes_amount else m.total_no_amount) },
        r.amount * (m.total_yes_amount + m.total_no_amount) /
          (if o then m.total_yes_amount else m.total_no_amount)) := by
  have hT : wadd m.total_yes_amount m.total_no_amount =
      m.total_yes_amount + m.total_no_amount := Nat.mod_eq_of_lt hpool
  have hprodlt : r.amount * (m.total_yes_amount + m.total_no_amount) <
      U128_MOD := by
    calc r.amount * (m.total_yes_amount + m.total_no_amount) <
          U64_MOD * U64_MOD := Nat.mul_lt_mul'' hr hpool
      _ = U128_MOD := by norm_num [U64_MOD, U128_MOD]
  have hcm : checked_mul r.amount
      (wadd m.total_yes_amount m.total_no_amount) =
      some (r.amount * (m.total_yes_amount + m.total_no_amount)) := by
    rw [hT]
    unfold checked_mul
    rw [if_pos hprodlt]
  have hcd : checked_div
      (r.amount * (m.total_yes_amount + m.total_no_amount))
      (if o then m.total_yes_amount else m.total_no_amount) =
      some (r.amount * (m.total_yes_amount + m.total_no_amount) /
        (if o then m.total_yes_amount else m.total_no_amount)) := by
    unfold checked_div
    rw [if_neg hW]
  refine ⟨by rw [hcm]; simp, ?_⟩
  simp only [claim_winnings, hres, hcl, ho, hp]
  simp [hcm, hcd, Nat.mod_eq_of_lt hq]

/-- The worked example from the spec: a resolved YES market with pools
300 / 100. -/
def c2M : PredictionMarket :=
  { sampleM with
    is_resolved := true, outcome := some true,
    resolved_timestamp := some 10, total_yes_amount := 300,
    total_no_amount := 100, total_participants := 3 }

/-- A winning stake of 30 on `c2M`. -/
def c2R : UserPrediction where
  market := 3
  user := 9
  amount := 30
  prediction := true
  timestamp := 0
  claimed := false
  winnings := 0

/-- Witness for C2: with pools 300 / 100, outcome YES and a winning stake
of 30, the payout is `floor(30 * 400 / 300) = 40`. -/
theorem claim_winnings_payout_formula_witness :
    claim_winnings c2M c2R =
      .ok (c2M, { c2R with claimed := true, winnings := 40 }, 40) := by
  have h := claim_winnings_payout_formula c2M c2R true rfl rfl rfl rfl
    (by decide) (by decide) (by decide) (by decide)
  exact h.2

/-- A resolved market for which the exact payout quotient exceeds the
`u64` range (winning pool 1, losing pool `2^64 - 2`). -/
def c2xM : PredictionMarket :=
  { sampleM with
    is_resolved := true, outcome := some true,
    resolved_timestamp := some 10, total_yes_amount := 1,
    total_no_amount := 2 ^ 64 - 2, total_participants := 2 }

/-- A stake of 3 on the winning side of `c2xM`. -/
def c2xR : UserPrediction where
  market := 3
  user := 9
  amount := 3
  prediction := true
  timestamp := 0
  claimed := false
  winnings := 0

/-- Counterexample to C2 as stated: this claim on `c2xM` succeeds, but the
recorded payout is `2^64 - 3`, not the exact
`floor(amount * total_pool / winning_pool) = 3 * 2^64 - 3` — the `as u64`
cast truncated the quotient. -/
theorem claim_winnings_payout_formula_counterexample :
    (claim_winnings c2xM c2xR).isOk = true ∧
    payoutOf c2xM c2xR = 2 ^ 64 - 3 ∧
    c2xR.amount * (c2xM.total_yes_amount + c2xM.total_no_amount) /
      c2xM.total_yes_amount = 3 * 2 ^ 64 - 3 ∧
    (2 ^ 64 - 3 : Nat) ≠ 3 * 2 ^ 64 - 3 := by
  refine ⟨rfl, rfl, by decide, by decide⟩

/-- Claim C10: whenever `claim_winnings` succeeds in a state where the
claimant's stake is contained in the winning pool, the `u64` pool sum does
not overflow, and the exact payout fits in `u64`, the payout is at least
the stake: a winner is never paid back less than they staked. -/
theorem claim_winnings_winner_no_loss (m : PredictionMarket)
    (r : UserPrediction) (o : Bool)
    (t : PredictionMarket × UserPrediction × Nat)
    (ho : m.outcome = some o)
    (hin : r.amount ≤ (if o then m.total_yes_amount else m.total_no_amount))
    (hpool : m.total_yes_amount + m.total_no_amount < U64_MOD)
    (hfit : r.amount * (m.total_yes_amount + m.total_no_amount) /
        (if o then m.total_yes_amount else m.total_no_amount) < U64_MOD)
    (hok : claim_winnings m r = .ok t) :
    r.amount ≤ t.2.2 := by
  obtain ⟨o', ho', -, -, -, hW, ht⟩ := claim_winnings_ok_spec m r t hok
  rw [ho] at ho'
  injection ho' with hoo
  subst hoo
  have hT : wadd m.total_yes_amount m.total_no_amount =
      m.total_yes_amount + m.total_no_amount := Nat.mod_eq_of_lt hpool
  have ht2 : t.2.2 = r.amount * (m.total_yes_amount + m.total_no_amount) /
      (if o then m.total_yes_amount else m.total_no_amount) := by
    rw [ht]
    show r.amount * wadd m.total_yes_amount m.total_no_amount /
        (if o then m.total_yes_amount else m.total_no_amount) % U64_MOD = _
    rw [hT]
    exact Nat.mod_eq_of_lt hfit
  rw [ht2]
  have hWle : (if o then m.total_yes_amount else m.total_no_amount) ≤
      m.total_yes_amount + m.total_no_amount := by
    cases o <;> simp
  have hW0 : 0 < (if o then m.total_yes_amount else m.total_no_amount) :=
    Nat.pos_of_ne_zero hW
  calc r.amount
      = r.amount * (if o then m.total_yes_amount else m.total_no_amount) /
        (if o then m.total_yes_amount else m.total_no_amount) :=
        (Nat.mul_div_cancel r.amount hW0).symm
    _ ≤ r.amount * (m.total_yes_amount + m.total_no_amount) /
        (if o then m.total_yes_amount else m.total_no_amount) :=
        Nat.div_le_div_right (Nat.mul_le_mul_left r.amount hWle)

/-- Witness for C10 at the worked example: the winner staked 30 and is
paid 40. -/
theorem claim_winnings_winner_no_loss_witness : c2R.amount ≤ 40 :=
  claim_winnings_winner_no_loss c2M c2R true
    (c2M, { c2R with claimed := true, winnings := 40 }, 40) rfl
    (by decide) (by decide) (by decide) rfl

/-- The sum of pointwise floored divisions is at most the floored division
of the sum. -/
theorem sum_div_le (l : List Nat) (d : Nat) :
    (l.map (fun a => a / d)).sum ≤ l.sum / d := by
  induction l with
  | nil => simp
  | cons a l ih =>
    simp only [List.map_cons, List.sum_cons]
    calc a / d + (l.map (fun a => a / d)).sum ≤ a / d + l.sum / d :=
          Nat.add_le_add_left ih _
      _ ≤ (a + l.sum) / d := Nat.add_div_le_add_div a l.sum d

/-- Each claim attempt pays at most `amount * total_pool / winning_pool`;
a failed attempt pays nothing. -/
theorem payoutOf_le (m : PredictionMarket) (r : UserPrediction) (o : Bool)
    (ho : m.outcome = some o) :
    payoutOf m r ≤ r.amount * wadd m.total_yes_amount m.total_no_amount /
      (if o then m.total_yes_amount else m.total_no_amount) := by
  unfold payoutOf
  cases hcw : claim_winnings m r with
  | error e => exact Nat.zero_le _
  | ok t =>
    obtain ⟨m', r', w⟩ := t
    obtain ⟨o', ho', -, -, -, -, ht⟩ :=
      claim_winnings_ok_spec m r (m', r', w) hcw
    rw [ho] at ho'
    injection ho' with hoo
    subst hoo
    have hw : w = r.amount * wadd m.total_yes_amount m.total_no_amount /
        (if o then m.total_yes_amount else m.total_no_amount) % U64_MOD := by
      have hcomp := congrArg (fun p => p.2.2) ht
      simpa using hcomp
    show w ≤ _
    rw [hw]
    exact Nat.mod_le _ _

/-- Claim C3: on a resolved market, for any collection of stake records
whose amounts sum to the winning pool (one record per winning stake), the
total paid out by all their `claim_winnings` calls never exceeds
`total_yes_amount + total_no_amount`, and the rounding-dust residual left
in the pool is never negative. -/
theorem claim_payouts_conserve (m : PredictionMarket) (o : Bool)
    (rs : List UserPrediction) (ho : m.outcome = some o)
    (hsum : (rs.map (fun r => r.amount)).sum =
      (if o then m.total_yes_amount else m.total_no_amount)) :
    (rs.map (fun r => payoutOf m r)).sum ≤
      m.total_yes_amount + m.total_no_amount ∧
    (0 : Int) ≤ ((m.total_yes_amount + m.total_no_amount : Nat) : Int) -
      ((rs.map (fun r => payoutOf m r)).sum : Int) := by
  have h1 : (rs.map (fun r => payoutOf m r)).sum ≤
      (rs.map (fun r =>
        r.amount * wadd m.total_yes_amount m.total_no_amount /
          (if o then m.total_yes_amount else m.total_no_amount))).sum :=
    List.sum_le_sum (fun r _ => payoutOf_le m r o ho)
  have h2 : (rs.map (fun r =>
      r.amount * wadd m.total_yes_amount m.total_no_amount /
        (if o then m.total_yes_amount else m.total_no_amount))).sum =
      ((rs.map (fun r =>
        r.amount * wadd m.total_yes_amount m.total_no_amount)).map
          (fun a => a /
            (if o then m.total_yes_amount else m.total_no_amount))).sum := by
    rw [List.map_map]
    rfl
  have h3 := sum_div_le
    (rs.map (fun r => r.amount * wadd m.total_yes_amount m.total_no_amount))
    (if o then m.total_yes_amount else m.total_no_amount)
  have h4 : (rs.map (fun r =>
      r.amount * wadd m.total_yes_amount m.total_no_amount)).sum =
      (if o then m.total_yes_amount else m.total_no_amount) *
        wadd m.total_yes_amount m.total_no_amount := by
    rw [List.sum_map_mul_right, hsum]
  have h5 : (if o then m.total_yes_amount else m.total_no_amount) *
      wadd m.total_yes_amount m.total_no_amount /
      (if o then m.total_yes_amount else m.total_no_amount) ≤
      wadd m.total_yes_amount m.total_no_amount := by
    rcases Nat.eq_zero_or_pos
      (if o then m.total_yes_amount else m.total_no_amount) with h | h
    · simp [h]
    · exact le_of_eq (Nat.mul_div_cancel_left _ h)
  have h6 : wadd m.total_yes_amount m.total_no_amount ≤
      m.total_yes_amount + m.total_no_amount := by
    simp only [wadd]
    exact Nat.mod_le _ _
  have hmain : (rs.map (fun r => payoutOf m r)).sum ≤
      m.total_yes_amount + m.total_no_amount := by
    have hchain := le_trans (le_trans h1 (le_of_eq h2)) h3
    rw [h4] at hchain
    exact le_trans hchain (le_trans h5 h6)
  exact ⟨hmain, by omega⟩

/-- A resolved market with pools 30 / 10 for instantiating C3. -/
def c3M : PredictionMarket :=
  { sampleM with
    is_resolved := true, outcome := some true,
    resolved_timestamp := some 10, total_yes_amount := 30,
    total_no_amount := 10, total_participants := 3 }

/-- First winning stake record on `c3M`: 20 on YES. -/
def c3R1 : UserPrediction where
  market := 3
  user := 9
  amount := 20
  prediction := true
  timestamp := 0
  claimed := false
  winnings := 0

/-- Second winning stake record on `c3M`: 10 on YES. -/
def c3R2 : UserPrediction where
  market := 3
  user := 8
  amount := 10
  prediction := true
  timestamp := 0
  claimed := false
  winnings := 0

/-- Witness for C3: on `c3M` the two winners (20 and 10 on YES, summing to
the winning pool 30) receive `floor(20*40/30) + floor(10*40/30)
= 26 + 13 = 39 ≤ 40`, and the dust residual is nonnegative. -/
theorem claim_payouts_conserve_witness :
    ([c3R1, c3R2].map (fun r => payoutOf c3M r)).sum ≤
      c3M.total_yes_amount + c3M.total_no_amount ∧
    (0 : Int) ≤ ((c3M.total_yes_amount + c3M.total_no_amount : Nat) : Int) -
      (([c3R1, c3R2].map (fun r => payoutOf c3M r)).sum : Int) :=
  claim_payouts_conserve c3M true [c3R1, c3R2] rfl (by decide)

/-- A resolved market (winning pool 1, losing pool `2^64 - 2`) on which the
payout quotient overflows `u64`. -/
def c1M : PredictionMarket :=
  { sampleM with
    is_resolved := true, outcome := some true,
    resolved_timestamp := some 10, total_yes_amount := 1,
    total_no_amount := 2 ^ 64 - 2, total_participants := 2 }

/-- A stake of 2 on the winning side of `c1M`. -/
def c1R : UserPrediction where
  market := 3
  user := 9
  amount := 2
  prediction := true
  timestamp := 0
  claimed := false
  winnings := 0

/-- A live unresolved market whose YES pool already sits at the `u64`
maximum. -/
def c1bM : PredictionMarket :=
  { sampleM with total_yes_amount := 2 ^ 64 - 1, total_participants := 1 }

/-- Claim C1 (code bug): the payout computation is not fully
overflow-checked. On `c1M` the claim succeeds with recorded winnings
`2^64 - 2` although the exact quotient is `2^65 - 2`: the final `as u64`
cast silently truncated the value instead of surfacing `MathOverflow`.
Likewise the pooled-total increment in `place_prediction` is an unchecked
`+=`: staking 5 on a YES pool of `2^64 - 1` succeeds and wraps the pool
around to 4 rather than failing. -/
theorem claim_winnings_truncates_code_bug :
    claim_winnings c1M c1R =
      .ok (c1M, { c1R with claimed := true, winnings := 2 ^ 64 - 2 },
        2 ^ 64 - 2) ∧
    c1R.amount * (c1M.total_yes_amount + c1M.total_no_amount) /
      c1M.total_yes_amount = 2 ^ 65 - 2 ∧
    (place_prediction 3 c1bM freshR 9 5 true 0).isOk = true ∧
    (stepMarket c1bM (.place freshR 9 5 true 0 3)).total_yes_amount = 4 :=
  ⟨rfl, by decide, rfl, by decide⟩

end PrediktFi
